import Mathlib

/-!
Verification of the Fractal-js compute engine against its specification.

The TypeScript sources are shallowly embedded over exact rational
arithmetic: every JavaScript number is modelled as a rational, so the
algebraic structure of each kernel (operand order, comparison direction,
loop bounds) is preserved exactly while machine rounding is idealised
away.  Stateful orchestration code (the in-flight task map of
FractalEngine.renderFractal) is embedded by explicit state passing.

Source files referenced below:
  fractal-worker.ts   : worker kernels, renderTile, generatePalette
  fractal-utils.ts    : ComplexMath, FractalCalculations, ColorPalette
  fractal-engine.ts   : FractalEngine (tiling, compositing, dedup, progress)
  webgpu-engine.ts    : WGSL compute shader for Mandelbrot
-/

namespace FractalJs

/-- Complex number record with rational components, after the source type
field-for-field (types: Complex is a pair of numbers real/imag). -/
structure Complex where
  real : ℚ
  imag : ℚ
deriving DecidableEq, Repr

namespace ComplexMath

/-- ComplexMath.add from fractal-utils.ts (the worker file defines a
textually identical local helper). -/
def add (a b : Complex) : Complex :=
  ⟨a.real + b.real, a.imag + b.imag⟩

/-- ComplexMath.subtract from fractal-utils.ts (identical local helper in
the worker file). -/
def subtract (a b : Complex) : Complex :=
  ⟨a.real - b.real, a.imag - b.imag⟩

/-- ComplexMath.multiply from fractal-utils.ts (identical local helper in
the worker file). -/
def multiply (a b : Complex) : Complex :=
  ⟨a.real * b.real - a.imag * b.imag, a.real * b.imag + a.imag * b.real⟩

/-- ComplexMath.divide from fractal-utils.ts (identical local helper in the
worker file).  Rational division by zero yields zero in Lean; the guarded
call sites never divide by zero, which claim C9 establishes. -/
def divide (a b : Complex) : Complex :=
  let denominator := b.real * b.real + b.imag * b.imag
  ⟨(a.real * b.real + a.imag * b.imag) / denominator,
   (a.imag * b.real - a.real * b.imag) / denominator⟩

/-- ComplexMath.magnitudeSquared from fractal-utils.ts. -/
def magnitudeSquared (z : Complex) : ℚ :=
  z.real * z.real + z.imag * z.imag

/-- Comparison "magnitude(z) < c" as used by the source, expressed without
the square root: for a nonnegative radicand m and a bound c one has
sqrt m < c exactly when 0 < c and m < c * c.  The bridging lemma
magnitudeLt_iff_sqrt below certifies this against Real.sqrt. -/
def magnitudeLt (z : Complex) (c : ℚ) : Bool :=
  decide (0 < c ∧ magnitudeSquared z < c * c)

theorem magnitudeSquared_nonneg (z : Complex) : 0 ≤ magnitudeSquared z := by
  unfold magnitudeSquared
  nlinarith [sq_nonneg z.real, sq_nonneg z.imag]

/-- Faithfulness of magnitudeLt: it agrees with the square-root based
comparison Math.sqrt(re*re+im*im) < c performed by the source. -/
theorem magnitudeLt_iff_sqrt (z : Complex) (c : ℚ) :
    magnitudeLt z c = true ↔ Real.sqrt ((magnitudeSquared z : ℚ) : ℝ) < (c : ℝ) := by
  unfold magnitudeLt
  rw [decide_eq_true_iff]
  constructor
  · rintro ⟨hc, hm⟩
    have hc' : (0 : ℝ) < (c : ℝ) := by exact_mod_cast hc
    rw [show ((c : ℝ)) = Real.sqrt ((c : ℝ) * (c : ℝ)) from
      (Real.sqrt_mul_self hc'.le).symm]
    apply Real.sqrt_lt_sqrt (by exact_mod_cast magnitudeSquared_nonneg z)
    exact_mod_cast hm
  · intro h
    have hge : (0 : ℝ) ≤ Real.sqrt ((magnitudeSquared z : ℚ) : ℝ) := Real.sqrt_nonneg _
    have hc : (0 : ℝ) < (c : ℝ) := lt_of_le_of_lt hge h
    refine ⟨by exact_mod_cast hc, ?_⟩
    have hm : ((magnitudeSquared z : ℚ) : ℝ) < (c : ℝ) * (c : ℝ) := by
      have := Real.sq_sqrt (show (0:ℝ) ≤ ((magnitudeSquared z : ℚ) : ℝ) by
        exact_mod_cast magnitudeSquared_nonneg z)
      nlinarith [Real.sqrt_nonneg ((magnitudeSquared z : ℚ) : ℝ)]
    exact_mod_cast hm

end ComplexMath

/-! ## Escape-time kernels

Each while loop of the source becomes a recursive function on the loop
state (zx, zy, iteration); it terminates because iteration strictly
increases up to maxIterations. -/

/-- Loop body of calculateMandelbrotPoint (fractal-worker.ts lines
324-342): iterate z := z*z + c from z = 0 while zx*zx+zy*zy stays at or
below escapeRadius and iteration is below maxIterations. -/
def calcMandelbrotGo (real imaginary escapeRadius : ℚ) (maxIterations : ℕ)
    (zx zy : ℚ) (iteration : ℕ) : ℕ :=
  if h : zx * zx + zy * zy ≤ escapeRadius ∧ iteration < maxIterations then
    calcMandelbrotGo real imaginary escapeRadius maxIterations
      (zx * zx - zy * zy + real) (2 * zx * zy + imaginary) (iteration + 1)
  else iteration
termination_by maxIterations - iteration
decreasing_by exact Nat.sub_succ_lt_self _ _ h.2

/-- calculateMandelbrotPoint from fractal-worker.ts. -/
def calculateMandelbrotPoint (real imaginary : ℚ) (maxIterations : ℕ)
    (escapeRadius : ℚ) : ℕ :=
  calcMandelbrotGo real imaginary escapeRadius maxIterations 0 0 0

/-- Loop body of FractalCalculations.mandelbrot (fractal-utils.ts lines
791-809); its text coincides with the worker kernel (the engine class
keeps a third identical private copy, fractal-engine.ts
calculateMandelbrotPoint). -/
def fcMandelbrotGo (real imaginary escapeRadius : ℚ) (maxIterations : ℕ)
    (zx zy : ℚ) (iteration : ℕ) : ℕ :=
  if h : zx * zx + zy * zy ≤ escapeRadius ∧ iteration < maxIterations then
    fcMandelbrotGo real imaginary escapeRadius maxIterations
      (zx * zx - zy * zy + real) (2 * zx * zy + imaginary) (iteration + 1)
  else iteration
termination_by maxIterations - iteration
decreasing_by exact Nat.sub_succ_lt_self _ _ h.2

/-- FractalCalculations.mandelbrot from fractal-utils.ts. -/
def FractalCalculations.mandelbrot (real imaginary : ℚ) (maxIterations : ℕ)
    (escapeRadius : ℚ) : ℕ :=
  fcMandelbrotGo real imaginary escapeRadius maxIterations 0 0 0

/-- Loop of the WGSL compute shader main (webgpu-engine.ts lines 269-278):
same recurrence and the same comparison on the escape radius. -/
def gpuMandelbrotGo (real imag escapeRadius : ℚ) (maxIterations : ℕ)
    (zx zy : ℚ) (iteration : ℕ) : ℕ :=
  if h : zx * zx + zy * zy ≤ escapeRadius ∧ iteration < maxIterations then
    gpuMandelbrotGo real imag escapeRadius maxIterations
      (zx * zx - zy * zy + real) (2 * zx * zy + imag) (iteration + 1)
  else iteration
termination_by maxIterations - iteration
decreasing_by exact Nat.sub_succ_lt_self _ _ h.2

/-- Loop body of calculateJuliaPoint (fractal-worker.ts lines 344-363):
z starts at the pixel coordinate and c is the fixed parameter. -/
def calcJuliaGo (cReal cImag escapeRadius : ℚ) (maxIterations : ℕ)
    (zx zy : ℚ) (iteration : ℕ) : ℕ :=
  if h : zx * zx + zy * zy ≤ escapeRadius ∧ iteration < maxIterations then
    calcJuliaGo cReal cImag escapeRadius maxIterations
      (zx * zx - zy * zy + cReal) (2 * zx * zy + cImag) (iteration + 1)
  else iteration
termination_by maxIterations - iteration
decreasing_by exact Nat.sub_succ_lt_self _ _ h.2

/-- calculateJuliaPoint from fractal-worker.ts. -/
def calculateJuliaPoint (real imaginary : ℚ) (c : Complex) (maxIterations : ℕ)
    (escapeRadius : ℚ) : ℕ :=
  calcJuliaGo c.real c.imag escapeRadius maxIterations real imaginary 0

/-- Loop body of FractalCalculations.julia (fractal-utils.ts lines
814-833), textually identical to the worker Julia kernel. -/
def fcJuliaGo (cReal cImag escapeRadius : ℚ) (maxIterations : ℕ)
    (zx zy : ℚ) (iteration : ℕ) : ℕ :=
  if h : zx * zx + zy * zy ≤ escapeRadius ∧ iteration < maxIterations then
    fcJuliaGo cReal cImag escapeRadius maxIterations
      (zx * zx - zy * zy + cReal) (2 * zx * zy + cImag) (iteration + 1)
  else iteration
termination_by maxIterations - iteration
decreasing_by exact Nat.sub_succ_lt_self _ _ h.2

/-- FractalCalculations.julia from fractal-utils.ts. -/
def FractalCalculations.julia (real imaginary : ℚ) (c : Complex)
    (maxIterations : ℕ) (escapeRadius : ℚ) : ℕ :=
  fcJuliaGo c.real c.imag escapeRadius maxIterations real imaginary 0

/-- Loop body of calculateBurningShipPoint (fractal-worker.ts lines
365-383); FractalCalculations.burningShip (fractal-utils.ts lines 838-856)
is textually identical.  The imaginary update takes the absolute value of
2*zx*zy before adding the coordinate. -/
def calcBurningShipGo (real imaginary escapeRadius : ℚ) (maxIterations : ℕ)
    (zx zy : ℚ) (iteration : ℕ) : ℕ :=
  if h : zx * zx + zy * zy ≤ escapeRadius ∧ iteration < maxIterations then
    calcBurningShipGo real imaginary escapeRadius maxIterations
      (zx * zx - zy * zy + real) (|2 * zx * zy| + imaginary) (iteration + 1)
  else iteration
termination_by maxIterations - iteration
decreasing_by exact Nat.sub_succ_lt_self _ _ h.2

/-- calculateBurningShipPoint from fractal-worker.ts (and the identical
FractalCalculations.burningShip). -/
def calculateBurningShipPoint (real imaginary : ℚ) (maxIterations : ℕ)
    (escapeRadius : ℚ) : ℕ :=
  calcBurningShipGo real imaginary escapeRadius maxIterations 0 0 0

/-! ## Parameters and the pixel-to-complex coordinate mapping -/

/-- Common fractal parameters (types: FractalParameters).  The iteration
cap is a natural number; the remaining fields are rational. -/
structure FractalParameters where
  zoom : ℚ
  centerX : ℚ
  centerY : ℚ
  iterations : ℕ
  escapeRadius : ℚ
deriving DecidableEq, Repr

/-- Shared pixel-to-complex mapping used by renderTile (fractal-worker.ts,
all four cases), the CPU renderers (fractal-engine.ts) and the WGSL
shader: with scale = 3/zoom and aspectRatio = width/height,
real = centerX + ((x - width/2) * scale * aspectRatio) / width. -/
def pixelReal (centerX zoom : ℚ) (width height : ℕ) (x : ℕ) : ℚ :=
  centerX + (((x : ℚ) - (width : ℚ) / 2) * (3 / zoom) * ((width : ℚ) / (height : ℚ))) / (width : ℚ)

/-- Imaginary part of the shared mapping:
imag = centerY + ((y - height/2) * scale) / height. -/
def pixelImag (centerY zoom : ℚ) (height : ℕ) (y : ℕ) : ℚ :=
  centerY + (((y : ℚ) - (height : ℚ) / 2) * (3 / zoom)) / (height : ℚ)

/-- One invocation of the WGSL compute shader main (webgpu-engine.ts lines
254-282) at in-range pixel (x, y): maps the pixel to a complex coordinate
and runs the escape loop. -/
def gpuMandelbrotPixel (p : FractalParameters) (width height : ℕ)
    (x y : ℕ) : ℕ :=
  let real := pixelReal p.centerX p.zoom width height x
  let imag := pixelImag p.centerY p.zoom height y
  gpuMandelbrotGo real imag p.escapeRadius p.iterations 0 0 0

/-- Iteration value of the mandelbrot case of renderTile (fractal-worker.ts
lines 555-571) at local tile pixel (x, y) of the tile at (tileX, tileY):
the global coordinate (tileX+x, tileY+y) is mapped against the full
resolution and fed to calculateMandelbrotPoint. -/
def renderTileMandelbrotValue (p : FractalParameters) (width height : ℕ)
    (tileX tileY x y : ℕ) : ℕ :=
  let real := pixelReal p.centerX p.zoom width height (tileX + x)
  let imaginary := pixelImag p.centerY p.zoom height (tileY + y)
  calculateMandelbrotPoint real imaginary p.iterations p.escapeRadius

/-- Iteration value of renderMandelbrotCPU (fractal-engine.ts lines
432-465) at pixel (x, y): direct mapping plus
FractalCalculations.mandelbrot. -/
def renderMandelbrotCPUValue (p : FractalParameters) (width height : ℕ)
    (x y : ℕ) : ℕ :=
  let real := pixelReal p.centerX p.zoom width height x
  let imaginary := pixelImag p.centerY p.zoom height y
  FractalCalculations.mandelbrot real imaginary p.iterations p.escapeRadius

/-- Iteration value of the julia case of renderTile (fractal-worker.ts
lines 573-589) at local tile pixel (x, y) of the tile at (tileX, tileY). -/
def renderTileJuliaValue (p : FractalParameters) (c : Complex)
    (width height : ℕ) (tileX tileY x y : ℕ) : ℕ :=
  let real := pixelReal p.centerX p.zoom width height (tileX + x)
  let imaginary := pixelImag p.centerY p.zoom height (tileY + y)
  calculateJuliaPoint real imaginary c p.iterations p.escapeRadius

/-- Iteration value of renderJuliaCPU (fractal-engine.ts lines 485-534)
at pixel (x, y). -/
def renderJuliaCPUValue (p : FractalParameters) (c : Complex)
    (width height : ℕ) (x y : ℕ) : ℕ :=
  let real := pixelReal p.centerX p.zoom width height x
  let imaginary := pixelImag p.centerY p.zoom height y
  FractalCalculations.julia real imaginary c p.iterations p.escapeRadius

/-! ## Newton kernel -/

/-- Result record of the Newton kernel: the iteration count and the index
of the root converged to, with -1 for non-convergence. -/
structure NewtonResult where
  iterations : ℕ
  root : ℤ
deriving DecidableEq, Repr

/-- Derivative-underflow threshold 1e-14 of the Newton kernels. -/
def derivativeEpsilon : ℚ := 1 / 100000000000000

/-- evaluatePolynomialFromRootsWorker (fractal-worker.ts lines 442-477);
FractalCalculations.evaluatePolynomialFromRoots (fractal-utils.ts lines
923-959) is identical up to a log statement.  Returns (f z, fPrime z)
with f z the product of the factors (z - root) and fPrime z the sum over
i of the product of all factors except the i-th. -/
def evaluatePolynomialFromRoots (z : Complex) (roots : List Complex) :
    Complex × Complex :=
  if roots.length = 0 then (⟨1, 0⟩, ⟨0, 0⟩)
  else
    let f := roots.foldl
      (fun f root => ComplexMath.multiply f (ComplexMath.subtract z root)) ⟨1, 0⟩
    let fPrime := (List.range roots.length).foldl
      (fun fPrime i =>
        let term := (List.range roots.length).foldl
          (fun term j =>
            if i ≠ j then
              match roots.get? j with
              | some rootJ => ComplexMath.multiply term (ComplexMath.subtract z rootJ)
              | none => term
            else term) ⟨1, 0⟩
        ComplexMath.add fPrime term) ⟨0, 0⟩
    (f, fPrime)

/-- Squared distance dx*dx + dy*dy between the Newton iterate and a root,
as computed inside the nearest-root scan (fractal-worker.ts lines
415-417). -/
def distSq (zNext root : Complex) : ℚ :=
  (zNext.real - root.real) * (zNext.real - root.real) +
    (zNext.imag - root.imag) * (zNext.imag - root.imag)

/-- Comparison distance < minDistance where minDistance starts at
positive infinity (none). -/
def distanceLtMin (distance : ℚ) : Option ℚ → Bool
  | none => true
  | some m => decide (distance < m)

/-- Nearest-root search of the Newton kernels (fractal-worker.ts lines
408-427): scan the roots keeping the squared-distance minimum, with an
early break once a candidate is within tolerance squared.  Every list
element exists, so the truthiness guard on roots[index] in the source is
always taken. -/
def closestRootGo (zNext : Complex) (tolerance : ℚ) :
    List Complex → ℕ → ℕ → Option ℚ → ℕ
  | [], _, closestRoot, _ => closestRoot
  | root :: rest, index, closestRoot, minDistance =>
    if distanceLtMin (distSq zNext root) minDistance then
      if distSq zNext root < tolerance * tolerance then index
      else closestRootGo zNext tolerance rest (index + 1) index
        (some (distSq zNext root))
    else closestRootGo zNext tolerance rest (index + 1) closestRoot minDistance

/-- Loop of calculateNewtonPoint (fractal-worker.ts lines 385-437);
FractalCalculations.newton (fractal-utils.ts lines 861-916) is textually
identical (it merely receives an additional, unused polynomial argument).
The derivative-underflow break and the post-loop fallthrough both return
(maxIterations, -1). -/
def calcNewtonGo (tolerance : ℚ) (maxIterations : ℕ) (roots : List Complex)
    (z : Complex) (iteration : ℕ) : NewtonResult :=
  if h : iteration < maxIterations then
    let fp := evaluatePolynomialFromRoots z roots
    if ComplexMath.magnitudeLt fp.2 derivativeEpsilon then
      ⟨maxIterations, -1⟩
    else
      let zNext := ComplexMath.subtract z (ComplexMath.divide fp.1 fp.2)
      if ComplexMath.magnitudeLt (ComplexMath.subtract zNext z) tolerance then
        ⟨iteration, (closestRootGo zNext tolerance roots 0 0 none : ℕ)⟩
      else
        calcNewtonGo tolerance maxIterations roots zNext (iteration + 1)
  else ⟨maxIterations, -1⟩
termination_by maxIterations - iteration
decreasing_by exact Nat.sub_succ_lt_self _ _ h

/-- calculateNewtonPoint from fractal-worker.ts (and the identical loop of
FractalCalculations.newton). -/
def calculateNewtonPoint (real imaginary : ℚ) (tolerance : ℚ)
    (maxIterations : ℕ) (roots : List Complex) : NewtonResult :=
  calcNewtonGo tolerance maxIterations roots ⟨real, imaginary⟩ 0

/-- Composite color value stored per Newton pixel by renderNewtonCPU
(fractal-engine.ts lines 627-630) and by the newton case of renderTile
(fractal-worker.ts lines 629-632): root*100 + iterations for a convergent
pixel, the iteration cap otherwise. -/
def newtonColorValue (result : NewtonResult) (maxIterations : ℕ) : ℕ :=
  if 0 ≤ result.root then result.root.toNat * 100 + result.iterations
  else maxIterations

/-! ## Color palette subsystem -/

/-- RGBA quadruple as stored in the palette arrays and pixel buffers. -/
structure RGBA where
  r : ℕ
  g : ℕ
  b : ℕ
  a : ℕ
deriving DecidableEq, Repr

/-- Opaque black, the hard-coded color of in-set and non-convergent
pixels. -/
def blackPixel : RGBA := ⟨0, 0, 0, 255⟩

/-- Fractal kinds handled by the pixel kernels (types: FractalType; the
lyapunov and barnsley-fern tags are rejected by renderTile before any
pixel is colored and play no role in the claims). -/
inductive FractalType
  | mandelbrot
  | julia
  | burningShip
  | newton
deriving DecidableEq, Repr

/-- Palette identifiers (ColorPalette.getPaletteNames in
fractal-utils.ts). -/
inductive PaletteType
  | mandelbrot
  | julia
  | newton
  | hot
  | cool
  | rainbow
  | fire
  | ocean
  | sunset
  | grayscale
deriving DecidableEq, Repr

/-- Indexing palette[i] for a possibly negative JavaScript index: a
negative or out-of-range index yields undefined, modelled as none. -/
def paletteGet (palette : List RGBA) (i : ℤ) : Option RGBA :=
  if 0 ≤ i then palette.get? i.toNat else none

/-- Grayscale branch of the worker palette generator (fractal-worker.ts
generatePalette, lines 833-838): steps entries, entry i has value
floor((i/(steps-1)) * 255); ColorPalette.generateGrayscale
(fractal-utils.ts lines 182-189) is identical. -/
def generateGrayscale (steps : ℕ) : List RGBA :=
  (List.range steps).map fun (i : ℕ) =>
    let value := (⌊((i : ℚ) / ((steps : ℚ) - 1)) * 255⌋).toNat
    ⟨value, value, value, 255⟩

/-- Per-pixel color of ColorPalette.applyPalette (fractal-utils.ts lines
394-440): a value equal to maxIterations is hard-coded to opaque black;
otherwise colorIndex = floor((value/maxIterations) * (palette.length - 1))
selects a palette entry.  A missed lookup leaves the freshly allocated
ImageData pixel at (0,0,0,0), modelled by the none branch.  (Rational
division by zero yields zero; the only spot this differs from JavaScript
is the degenerate cap maxIterations = 0, which no claim concerns.) -/
def applyPalettePixel (iterations maxIterations : ℕ)
    (palette : List RGBA) : RGBA :=
  if iterations = maxIterations then ⟨0, 0, 0, 255⟩
  else
    let colorIndex :=
      ⌊((iterations : ℚ) / (maxIterations : ℚ)) * ((palette.length : ℚ) - 1)⌋
    match paletteGet palette colorIndex with
    | some color => color
    | none => ⟨0, 0, 0, 0⟩

/-- Per-pixel color of FractalEngine.applyNewtonPalette
(fractal-engine.ts lines 692-770): a colorValue equal to maxIterations is
opaque black; otherwise the composite value is decoded as
rootIndex = floor(colorValue/100), iterations = colorValue % 100 and a
partitioned palette entry is selected (gray band for rootIndex at or
beyond rootCount when rootCount is at least 4, default black
otherwise). -/
def applyNewtonPalettePixel (colorValue maxIterations : ℕ)
    (palette : List RGBA) (rootCount : ℕ) : RGBA :=
  let useExtendedPalette := decide (4 ≤ rootCount)
  let totalColorSets := if useExtendedPalette then rootCount + 1 else rootCount
  let colorsPerSet := palette.length / totalColorSets
  if colorValue = maxIterations then ⟨0, 0, 0, 255⟩
  else
    let rootIndex := colorValue / 100
    let iterations := colorValue % 100
    if rootIndex < rootCount then
      let iterationOffset :=
        ⌊((iterations : ℚ) / (maxIterations : ℚ)) * ((colorsPerSet : ℚ) - 1)⌋
      let paletteIndex := (rootIndex * colorsPerSet : ℤ) + iterationOffset
      match paletteGet palette paletteIndex with
      | some color => color
      | none => ⟨0, 0, 0, 0⟩
    else if useExtendedPalette then
      let iterationOffset :=
        ⌊((iterations : ℚ) / (maxIterations : ℚ)) * ((colorsPerSet : ℚ) - 1)⌋
      let paletteIndex := (rootCount * colorsPerSet : ℤ) + iterationOffset
      match paletteGet palette paletteIndex with
      | some color => color
      | none => ⟨0, 0, 0, 0⟩
    else ⟨0, 0, 0, 255⟩

/-- Coloring maxIterations local of renderTile (fractal-worker.ts lines
644-660): the newton case is hard-coded to 300, the escape-time kinds use
the iteration cap of the parameters. -/
def renderTileMaxIterations (fractalType : FractalType)
    (paramIterations : ℕ) : ℕ :=
  match fractalType with
  | .mandelbrot => paramIterations
  | .julia => paramIterations
  | .burningShip => paramIterations
  | .newton => 300

/-- Per-pixel coloring of renderTile (fractal-worker.ts lines 644-711),
applied after the kernel produced (iterations, colorValue) for a pixel.
Only non-newton pixels with iterations equal to the coloring cap receive
the hard-coded black; a newton pixel with the newton palette goes through
the partitioned decode, any other combination through the standard
mapping, both with the index clamped to the palette range. -/
def renderTilePixelColor (fractalType : FractalType)
    (paletteType : PaletteType) (paramIterations : ℕ) (rootsLength : ℕ)
    (iterations colorValue : ℕ) (palette : List RGBA) : RGBA :=
  let maxIterations := renderTileMaxIterations fractalType paramIterations
  if fractalType ≠ FractalType.newton ∧ iterations = maxIterations then
    ⟨0, 0, 0, 255⟩
  else if fractalType = FractalType.newton ∧ paletteType = PaletteType.newton then
    let rootCount := if rootsLength = 0 then 3 else rootsLength
    let useExtendedPalette := decide (4 ≤ rootCount)
    let totalColorSets := if useExtendedPalette then rootCount + 1 else rootCount
    let colorsPerSet := palette.length / totalColorSets
    let rootIndex := colorValue / 100
    let iterationsInColor := colorValue % 100
    let colorIndex : ℤ :=
      if rootIndex < rootCount then
        (rootIndex * colorsPerSet : ℤ) +
          ⌊((iterationsInColor : ℚ) / (maxIterations : ℚ)) *
            ((max 1 ((colorsPerSet : ℤ) - 1) : ℤ) : ℚ)⌋
      else if useExtendedPalette ∧ rootCount ≤ rootIndex then
        (rootCount * colorsPerSet : ℤ) +
          ⌊((iterationsInColor : ℚ) / (maxIterations : ℚ)) *
            ((max 1 ((colorsPerSet : ℤ) - 1) : ℤ) : ℚ)⌋
      else 0
    let clamped := max 0 (min colorIndex ((palette.length : ℤ) - 1))
    match paletteGet palette clamped with
    | some color => color
    | none => ⟨0, 0, 0, 255⟩
  else
    let colorIndex : ℤ :=
      ⌊((colorValue : ℚ) / (maxIterations : ℚ)) * ((palette.length : ℚ) - 1)⌋
    let clamped := max 0 (min colorIndex ((palette.length : ℤ) - 1))
    match paletteGet palette clamped with
    | some color => color
    | none => ⟨0, 0, 0, 255⟩

/-! ## Worker-pool tiling (FractalEngine.renderWithWorkers) -/

/-- Tile rectangle in pixel coordinates (tileX, tileY, tileWidth,
tileHeight as computed in the tile loop). -/
structure Rect where
  x : ℕ
  y : ℕ
  w : ℕ
  h : ℕ
deriving DecidableEq, Repr

/-- Membership of pixel (px, py) in a tile rectangle. -/
def Rect.contains (r : Rect) (px py : ℕ) : Prop :=
  r.x ≤ px ∧ px < r.x + r.w ∧ r.y ≤ py ∧ py < r.y + r.h

instance (r : Rect) (px py : ℕ) : Decidable (r.contains px py) := by
  unfold Rect.contains
  infer_instance

/-- Dynamic tile-size policy of renderWithWorkers (fractal-engine.ts lines
296-314): bands on pixelsPerWorker = width*height/workerCount. -/
def tileSizePolicy (width height workerCount : ℕ) : ℕ :=
  let pixelsPerWorker : ℚ := ((width * height : ℕ) : ℚ) / (workerCount : ℚ)
  if pixelsPerWorker < 8192 then 64
  else if pixelsPerWorker < 32768 then 96
  else if pixelsPerWorker < 131072 then 128
  else 160

/-- Ceiling division as Math.ceil(width / tileSize) computes it for
natural arguments and positive tileSize. -/
def ceilDiv (a b : ℕ) : ℕ := (a + b - 1) / b

/-- Single tile rectangle of the loop body (fractal-engine.ts lines
340-343): tileX = tx*tileSize, tileWidth = min(tileSize, width - tileX),
and analogously in y.  Since tx ranges below ceil(width/tileSize), the
subtraction never underflows, so natural subtraction agrees with
JavaScript here. -/
def tileRect (tileSize tx ty width height : ℕ) : Rect :=
  ⟨tx * tileSize, ty * tileSize,
   min tileSize (width - tx * tileSize), min tileSize (height - ty * tileSize)⟩

/-- All tile rectangles generated by the nested loop of renderWithWorkers
(ty outer over ceil(height/tileSize), tx inner over
ceil(width/tileSize)). -/
def tileRects (width height tileSize : ℕ) : List Rect :=
  (List.range (ceilDiv height tileSize)).flatMap fun ty =>
    (List.range (ceilDiv width tileSize)).map fun tx =>
      tileRect tileSize tx ty width height

/-! ## Render-request deduplication (FractalEngine.renderFractal) -/

/-- Rounding of a rational to four decimal places as the string
c.toFixed(4) pins it down: the numerator of the nearest multiple of
1/10000, ties toward the larger value (ECMA toFixed), which is Lean
round. -/
def toFixed4 (q : ℚ) : ℤ := round (q * 10000)

/-- Deduplication fingerprint of renderFractal (fractal-engine.ts lines
186-193): julia keys carry c rounded to 4 decimals plus the iteration cap
and resolution; every other kind keys on the kind, iteration cap and
resolution only. -/
inductive RenderKey
  | julia (cReal4 cImag4 : ℤ) (iterations width height : ℕ)
  | other (fractalType : FractalType) (iterations width height : ℕ)
deriving DecidableEq, Repr

/-- Fingerprint computation from the fractal type, parameters and target
resolution, following the renderKey construction of renderFractal. -/
def makeRenderKey (fractalType : FractalType) (p : FractalParameters)
    (c : Complex) (width height : ℕ) : RenderKey :=
  match fractalType with
  | .julia => .julia (toFixed4 c.real) (toFixed4 c.imag) p.iterations width height
  | t => .other t p.iterations width height

/-- In-flight task map of the engine (currentRenderingTasks): fingerprints
paired with the identity of the running task, plus a counter supplying
fresh task identities.  Explicit state passing stands in for the mutable
Map field. -/
structure EngineTasks where
  tasks : List (RenderKey × ℕ)
  nextId : ℕ
deriving DecidableEq, Repr

/-- Map lookup (currentRenderingTasks.get). -/
def findTask : List (RenderKey × ℕ) → RenderKey → Option ℕ
  | [], _ => none
  | (k, tid) :: rest, key => if k = key then some tid else findTask rest key

/-- Entry of renderFractal for a computed fingerprint (fractal-engine.ts
lines 195-244): a hit in the in-flight map returns the existing task with
no new dispatch; a miss creates a fresh task, stores it under the
fingerprint and dispatches exactly once.  The returned Boolean records
whether a backend dispatch occurred. -/
def startRender (s : EngineTasks) (key : RenderKey) : ℕ × EngineTasks × Bool :=
  match findTask s.tasks key with
  | some tid => (tid, s, false)
  | none => (s.nextId, ⟨(key, s.nextId) :: s.tasks, s.nextId + 1⟩, true)

/-- Completion of the task for a fingerprint: the finally block of the
render task (fractal-engine.ts lines 235-238) deletes the fingerprint
from the in-flight map whether the task resolved or rejected. -/
def completeRender (s : EngineTasks) (key : RenderKey) : EngineTasks :=
  ⟨s.tasks.filter (fun e => e.1 ≠ key), s.nextId⟩

/-! ## Progress reporting -/

/-- Progress values delivered by renderWithWorkers (fractal-engine.ts
lines 361-382): after the k-th completed tile (k = 1..totalTiles) it
reports completedTiles/totalTiles. -/
def workerProgressValues (totalTiles : ℕ) : List ℚ :=
  (List.range totalTiles).map fun (k : ℕ) => ((k + 1 : ℕ) : ℚ) / (totalTiles : ℚ)

/-- Progress values delivered by the single-threaded CPU renderers
(fractal-engine.ts lines 441-465 and the parallel julia, burning-ship and
newton loops): y/height for each row index y below height divisible by
20, and nothing after the loop. -/
def cpuProgressValues (height : ℕ) : List ℚ :=
  ((List.range height).filter (fun y => y % 20 = 0)).map
    fun (y : ℕ) => (y : ℚ) / (height : ℚ)

/-! ## Helper lemmas: the three Mandelbrot loop embeddings agree -/

theorem calcMandelbrotGo_eq_gpu_fuel (real imaginary escapeRadius : ℚ)
    (maxIterations : ℕ) :
    ∀ fuel iteration zx zy, maxIterations ≤ iteration + fuel →
      calcMandelbrotGo real imaginary escapeRadius maxIterations zx zy iteration =
        gpuMandelbrotGo real imaginary escapeRadius maxIterations zx zy iteration := by
  intro fuel
  induction fuel with
  | zero =>
    intro iteration zx zy hle
    rw [calcMandelbrotGo, gpuMandelbrotGo]
    have h : ¬ (zx * zx + zy * zy ≤ escapeRadius ∧ iteration < maxIterations) := by
      rintro ⟨-, h2⟩; omega
    rw [dif_neg h, dif_neg h]
  | succ n ih =>
    intro iteration zx zy hle
    rw [calcMandelbrotGo, gpuMandelbrotGo]
    by_cases hc : zx * zx + zy * zy ≤ escapeRadius ∧ iteration < maxIterations
    · rw [dif_pos hc, dif_pos hc]
      exact ih (iteration + 1) _ _ (by omega)
    · rw [dif_neg hc, dif_neg hc]

theorem calcMandelbrotGo_eq_gpu (real imaginary escapeRadius : ℚ)
    (maxIterations : ℕ) (zx zy : ℚ) (iteration : ℕ) :
    calcMandelbrotGo real imaginary escapeRadius maxIterations zx zy iteration =
      gpuMandelbrotGo real imaginary escapeRadius maxIterations zx zy iteration :=
  calcMandelbrotGo_eq_gpu_fuel real imaginary escapeRadius maxIterations
    maxIterations iteration zx zy (by omega)

theorem fcMandelbrotGo_eq_gpu_fuel (real imaginary escapeRadius : ℚ)
    (maxIterations : ℕ) :
    ∀ fuel iteration zx zy, maxIterations ≤ iteration + fuel →
      fcMandelbrotGo real imaginary escapeRadius maxIterations zx zy iteration =
        gpuMandelbrotGo real imaginary escapeRadius maxIterations zx zy iteration := by
  intro fuel
  induction fuel with
  | zero =>
    intro iteration zx zy hle
    rw [fcMandelbrotGo, gpuMandelbrotGo]
    have h : ¬ (zx * zx + zy * zy ≤ escapeRadius ∧ iteration < maxIterations) := by
      rintro ⟨-, h2⟩; omega
    rw [dif_neg h, dif_neg h]
  | succ n ih =>
    intro iteration zx zy hle
    rw [fcMandelbrotGo, gpuMandelbrotGo]
    by_cases hc : zx * zx + zy * zy ≤ escapeRadius ∧ iteration < maxIterations
    · rw [dif_pos hc, dif_pos hc]
      exact ih (iteration + 1) _ _ (by omega)
    · rw [dif_neg hc, dif_neg hc]

theorem fcMandelbrotGo_eq_gpu (real imaginary escapeRadius : ℚ)
    (maxIterations : ℕ) (zx zy : ℚ) (iteration : ℕ) :
    fcMandelbrotGo real imaginary escapeRadius maxIterations zx zy iteration =
      gpuMandelbrotGo real imaginary escapeRadius maxIterations zx zy iteration :=
  fcMandelbrotGo_eq_gpu_fuel real imaginary escapeRadius maxIterations
    maxIterations iteration zx zy (by omega)

theorem calcJuliaGo_eq_fc_fuel (cReal cImag escapeRadius : ℚ)
    (maxIterations : ℕ) :
    ∀ fuel iteration zx zy, maxIterations ≤ iteration + fuel →
      calcJuliaGo cReal cImag escapeRadius maxIterations zx zy iteration =
        fcJuliaGo cReal cImag escapeRadius maxIterations zx zy iteration := by
  intro fuel
  induction fuel with
  | zero =>
    intro iteration zx zy hle
    rw [calcJuliaGo, fcJuliaGo]
    have h : ¬ (zx * zx + zy * zy ≤ escapeRadius ∧ iteration < maxIterations) := by
      rintro ⟨-, h2⟩; omega
    rw [dif_neg h, dif_neg h]
  | succ n ih =>
    intro iteration zx zy hle
    rw [calcJuliaGo, fcJuliaGo]
    by_cases hc : zx * zx + zy * zy ≤ escapeRadius ∧ iteration < maxIterations
    · rw [dif_pos hc, dif_pos hc]
      exact ih (iteration + 1) _ _ (by omega)
    · rw [dif_neg hc, dif_neg hc]

theorem calcJuliaGo_eq_fc (cReal cImag escapeRadius : ℚ)
    (maxIterations : ℕ) (zx zy : ℚ) (iteration : ℕ) :
    calcJuliaGo cReal cImag escapeRadius maxIterations zx zy iteration =
      fcJuliaGo cReal cImag escapeRadius maxIterations zx zy iteration :=
  calcJuliaGo_eq_fc_fuel cReal cImag escapeRadius maxIterations
    maxIterations iteration zx zy (by omega)

/-! ## Helper lemmas: iteration bounds of the escape loops -/

theorem gpuMandelbrotGo_le (real imaginary escapeRadius : ℚ)
    (maxIterations : ℕ) :
    ∀ fuel iteration zx zy, maxIterations ≤ iteration + fuel →
      iteration ≤ maxIterations →
      gpuMandelbrotGo real imaginary escapeRadius maxIterations zx zy iteration ≤
        maxIterations := by
  intro fuel
  induction fuel with
  | zero =>
    intro iteration zx zy hle hit
    rw [gpuMandelbrotGo]
    have h : ¬ (zx * zx + zy * zy ≤ escapeRadius ∧ iteration < maxIterations) := by
      rintro ⟨-, h2⟩; omega
    rw [dif_neg h]; exact hit
  | succ n ih =>
    intro iteration zx zy hle hit
    rw [gpuMandelbrotGo]
    by_cases hc : zx * zx + zy * zy ≤ escapeRadius ∧ iteration < maxIterations
    · rw [dif_pos hc]
      exact ih (iteration + 1) _ _ (by omega) (by omega)
    · rw [dif_neg hc]; exact hit

theorem fcJuliaGo_le (cReal cImag escapeRadius : ℚ) (maxIterations : ℕ) :
    ∀ fuel iteration zx zy, maxIterations ≤ iteration + fuel →
      iteration ≤ maxIterations →
      fcJuliaGo cReal cImag escapeRadius maxIterations zx zy iteration ≤
        maxIterations := by
  intro fuel
  induction fuel with
  | zero =>
    intro iteration zx zy hle hit
    rw [fcJuliaGo]
    have h : ¬ (zx * zx + zy * zy ≤ escapeRadius ∧ iteration < maxIterations) := by
      rintro ⟨-, h2⟩; omega
    rw [dif_neg h]; exact hit
  | succ n ih =>
    intro iteration zx zy hle hit
    rw [fcJuliaGo]
    by_cases hc : zx * zx + zy * zy ≤ escapeRadius ∧ iteration < maxIterations
    · rw [dif_pos hc]
      exact ih (iteration + 1) _ _ (by omega) (by omega)
    · rw [dif_neg hc]; exact hit

theorem calcBurningShipGo_le (real imaginary escapeRadius : ℚ)
    (maxIterations : ℕ) :
    ∀ fuel iteration zx zy, maxIterations ≤ iteration + fuel →
      iteration ≤ maxIterations →
      calcBurningShipGo real imaginary escapeRadius maxIterations zx zy iteration ≤
        maxIterations := by
  intro fuel
  induction fuel with
  | zero =>
    intro iteration zx zy hle hit
    rw [calcBurningShipGo]
    have h : ¬ (zx * zx + zy * zy ≤ escapeRadius ∧ iteration < maxIterations) := by
      rintro ⟨-, h2⟩; omega
    rw [dif_neg h]; exact hit
  | succ n ih =>
    intro iteration zx zy hle hit
    rw [calcBurningShipGo]
    by_cases hc : zx * zx + zy * zy ≤ escapeRadius ∧ iteration < maxIterations
    · rw [dif_pos hc]
      exact ih (iteration + 1) _ _ (by omega) (by omega)
    · rw [dif_neg hc]; exact hit

/-! ## Helper lemmas: Newton kernel -/

theorem evaluatePolynomialFromRoots_nil (z : Complex) :
    evaluatePolynomialFromRoots z [] = (⟨1, 0⟩, ⟨0, 0⟩) := rfl

theorem magnitudeLt_zero_eps :
    ComplexMath.magnitudeLt ⟨0, 0⟩ derivativeEpsilon = true := by
  simp only [ComplexMath.magnitudeLt, ComplexMath.magnitudeSquared]
  rw [decide_eq_true_iff]
  norm_num [derivativeEpsilon]

/-- In the branch that evaluates the Newton step, the guard has failed, so
the squared magnitude of the derivative, which is precisely the
denominator computed by ComplexMath.divide, is at least epsilon squared
and in particular positive. -/
theorem magnitudeLt_false_denominator (w : Complex)
    (h : ComplexMath.magnitudeLt w derivativeEpsilon = false) :
    derivativeEpsilon * derivativeEpsilon ≤ ComplexMath.magnitudeSquared w ∧
      0 < ComplexMath.magnitudeSquared w := by
  unfold ComplexMath.magnitudeLt at h
  rw [decide_eq_false_iff_not] at h
  push_neg at h
  have heps : (0 : ℚ) < derivativeEpsilon := by norm_num [derivativeEpsilon]
  have hge := h heps
  refine ⟨hge, lt_of_lt_of_le (by positivity) hge⟩

theorem closestRootGo_bound (zNext : Complex) (tolerance : ℚ) :
    ∀ (roots : List Complex) (index closestRoot : ℕ) (minDistance : Option ℚ),
      closestRootGo zNext tolerance roots index closestRoot minDistance <
          index + roots.length ∨
        closestRootGo zNext tolerance roots index closestRoot minDistance =
          closestRoot := by
  intro roots
  induction roots with
  | nil => intro index closestRoot minDistance; right; rfl
  | cons root rest ih =>
    intro index closestRoot minDistance
    rw [closestRootGo]
    split_ifs with h1 h2
    · left; simp only [List.length_cons]; omega
    · rcases ih (index + 1) index (some (distSq zNext root)) with h | h
      · left; simp only [List.length_cons] at h ⊢; omega
      · left; rw [h]; simp only [List.length_cons]; omega
    · rcases ih (index + 1) closestRoot minDistance with h | h
      · left; simp only [List.length_cons] at h ⊢; omega
      · right; exact h

theorem closestRootGo_none_lt (zNext : Complex) (tolerance : ℚ)
    (root : Complex) (rest : List Complex) (index : ℕ) (closestRoot : ℕ) :
    closestRootGo zNext tolerance (root :: rest) index closestRoot none <
      index + (root :: rest).length := by
  rw [closestRootGo]
  have h1 : distanceLtMin (distSq zNext root) none = true := rfl
  rw [if_pos h1]
  split_ifs with h2
  · simp only [List.length_cons]; omega
  · rcases closestRootGo_bound zNext tolerance rest (index + 1) index
      (some (distSq zNext root)) with h | h
    · simp only [List.length_cons] at h ⊢; omega
    · rw [h]; simp only [List.length_cons]; omega

/-! ## Helper lemmas: tiling arithmetic -/

theorem tileSizePolicy_mem (width height workerCount : ℕ) :
    tileSizePolicy width height workerCount = 64 ∨
      tileSizePolicy width height workerCount = 96 ∨
      tileSizePolicy width height workerCount = 128 ∨
      tileSizePolicy width height workerCount = 160 := by
  simp only [tileSizePolicy]
  split_ifs <;> simp

theorem tileSizePolicy_pos (width height workerCount : ℕ) :
    0 < tileSizePolicy width height workerCount := by
  rcases tileSizePolicy_mem width height workerCount with h | h | h | h <;>
    rw [h] <;> norm_num

theorem mem_tileRects (width height tileSize : ℕ) (r : Rect) :
    r ∈ tileRects width height tileSize ↔
      ∃ tx ty, tx < ceilDiv width tileSize ∧ ty < ceilDiv height tileSize ∧
        r = tileRect tileSize tx ty width height := by
  simp only [tileRects, List.mem_flatMap, List.mem_map, List.mem_range]
  constructor
  · rintro ⟨ty, hty, tx, htx, rfl⟩
    exact ⟨tx, ty, htx, hty, rfl⟩
  · rintro ⟨tx, ty, htx, hty, rfl⟩
    exact ⟨ty, hty, tx, htx, rfl⟩

/-- For positive tileSize, the loop bound tx < ceil(width/tileSize) is
equivalent to the tile origin tx*tileSize landing inside the image. -/
theorem lt_ceilDiv_iff (t w tx : ℕ) (ht : 0 < t) :
    tx < ceilDiv w t ↔ tx * t < w := by
  unfold ceilDiv
  rcases Nat.eq_zero_or_pos w with hw | hw
  · subst hw
    have h0 : (t - 1) / t = 0 := Nat.div_eq_of_lt (by omega)
    simp [h0]
  · constructor
    · intro h
      have h5 : (tx + 1) * t ≤ w + t - 1 :=
        le_trans (Nat.mul_le_mul_right t h) (Nat.div_mul_le_self _ t)
      have h6 : (tx + 1) * t = tx * t + t := by ring
      omega
    · intro h
      by_contra hcon
      push_neg at hcon
      have h1 : (w + t - 1) / t * t ≤ tx * t := Nat.mul_le_mul_right t hcon
      have h2 := Nat.div_add_mod (w + t - 1) t
      have h3 : (w + t - 1) % t < t := Nat.mod_lt _ ht
      have h7 : t * ((w + t - 1) / t) = (w + t - 1) / t * t := by ring
      omega

/-- Characterization of tile membership for in-range tile indices:
pixel (px, py) lies in the tile at (tx, ty) exactly when tx and ty are the
tile indices of the pixel and the pixel is inside the image. -/
theorem contains_tileRect_iff (t w h tx ty px py : ℕ) (ht : 0 < t)
    (htx : tx * t < w) (hty : ty * t < h) :
    (tileRect t tx ty w h).contains px py ↔
      tx = px / t ∧ ty = py / t ∧ px < w ∧ py < h := by
  unfold tileRect Rect.contains
  simp only []
  constructor
  · rintro ⟨h1, h2, h3, h4⟩
    have hx : px / t = tx := by
      apply Nat.div_eq_of_lt_le h1
      have hm : min t (w - tx * t) ≤ t := Nat.min_le_left _ _
      have he : (tx + 1) * t = tx * t + t := by ring
      omega
    have hy : py / t = ty := by
      apply Nat.div_eq_of_lt_le h3
      have hm : min t (h - ty * t) ≤ t := Nat.min_le_left _ _
      have he : (ty + 1) * t = ty * t + t := by ring
      omega
    have hminw : min t (w - tx * t) ≤ w - tx * t := Nat.min_le_right _ _
    have hminh : min t (h - ty * t) ≤ h - ty * t := Nat.min_le_right _ _
    exact ⟨hx.symm, hy.symm, by omega, by omega⟩
  · rintro ⟨rfl, rfl, hpw, hph⟩
    have e1 := Nat.div_add_mod px t
    have e2 := Nat.div_add_mod py t
    have c1 : t * (px / t) = px / t * t := by ring
    have c2 : t * (py / t) = py / t * t := by ring
    have m1 : px % t < t := Nat.mod_lt _ ht
    have m2 : py % t < t := Nat.mod_lt _ ht
    refine ⟨Nat.div_mul_le_self px t, ?_, Nat.div_mul_le_self py t, ?_⟩ <;> omega

/-! ## Helper lemmas: progress sequences and the in-flight task map -/

theorem workerProgressValues_pairwise (totalTiles : ℕ) :
    List.Pairwise (· ≤ ·) (workerProgressValues totalTiles) := by
  unfold workerProgressValues
  refine List.Pairwise.map _ ?_ (List.pairwise_lt_range totalTiles)
  intro a b hab
  apply div_le_div_of_nonneg_right _ (by positivity)
  have h : a + 1 ≤ b + 1 := by omega
  exact_mod_cast h

theorem cpuProgressValues_pairwise (height : ℕ) :
    List.Pairwise (· ≤ ·) (cpuProgressValues height) := by
  unfold cpuProgressValues
  refine List.Pairwise.map _ ?_ ((List.pairwise_lt_range height).filter _)
  intro a b hab
  apply div_le_div_of_nonneg_right _ (by positivity)
  exact_mod_cast le_of_lt hab

theorem workerProgressValues_getLast (totalTiles : ℕ) (h : 0 < totalTiles) :
    (workerProgressValues totalTiles).getLast? = some 1 := by
  obtain ⟨k, rfl⟩ : ∃ k, totalTiles = k + 1 := ⟨totalTiles - 1, by omega⟩
  unfold workerProgressValues
  rw [List.range_succ, List.map_append, List.map_singleton, List.getLast?_concat]
  congr 1
  rw [div_eq_one_iff_eq (by exact_mod_cast (Nat.succ_ne_zero k))]

theorem cpuProgressValues_lt_one (height : ℕ) :
    ∀ q ∈ cpuProgressValues height, q < 1 := by
  intro q hq
  unfold cpuProgressValues at hq
  rw [List.mem_map] at hq
  obtain ⟨y, hy, rfl⟩ := hq
  rw [List.mem_filter, List.mem_range] at hy
  have hh : 0 < height := Nat.pos_of_ne_zero (by omega)
  rw [div_lt_one (by exact_mod_cast hh)]
  exact_mod_cast hy.1

theorem findTask_insert (tasks : List (RenderKey × ℕ)) (key : RenderKey)
    (tid : ℕ) : findTask ((key, tid) :: tasks) key = some tid := by
  unfold findTask
  rw [if_pos rfl]

theorem findTask_filter_ne (key : RenderKey) :
    ∀ tasks : List (RenderKey × ℕ),
      findTask (tasks.filter (fun e => e.1 ≠ key)) key = none := by
  intro tasks
  induction tasks with
  | nil => rfl
  | cons e rest ih =>
    by_cases he : e.1 = key
    · rw [List.filter_cons_of_neg (by simp [he])]
      exact ih
    · rw [List.filter_cons_of_pos (by simp [he])]
      unfold findTask
      rw [if_neg he]
      exact ih

/-- Structural facts about the Newton loop: the reported iteration count
never exceeds the cap, and a convergent result carries a valid root
index together with an iteration count strictly below the cap. -/
theorem calcNewtonGo_spec (tolerance : ℚ) (maxIterations : ℕ)
    (roots : List Complex) :
    ∀ fuel iteration z, maxIterations ≤ iteration + fuel →
      (calcNewtonGo tolerance maxIterations roots z iteration).iterations ≤
          maxIterations ∧
        (0 ≤ (calcNewtonGo tolerance maxIterations roots z iteration).root →
          (calcNewtonGo tolerance maxIterations roots z iteration).root.toNat <
              roots.length ∧
            (calcNewtonGo tolerance maxIterations roots z iteration).iterations <
              maxIterations) := by
  intro fuel
  induction fuel with
  | zero =>
    intro iteration z hle
    rw [calcNewtonGo]
    have h : ¬ iteration < maxIterations := by omega
    rw [dif_neg h]
    refine ⟨le_refl _, fun habs => absurd habs (by norm_num)⟩
  | succ n ih =>
    intro iteration z hle
    rw [calcNewtonGo]
    by_cases hit : iteration < maxIterations
    · rw [dif_pos hit]
      simp only []
      split
      · exact ⟨le_refl _, fun habs => absurd habs (by norm_num)⟩
      · rename_i hguard
        split
        · refine ⟨le_of_lt hit, fun _ => ⟨?_, hit⟩⟩
          have hne : roots ≠ [] := by
            intro hnil
            rw [hnil] at hguard
            rw [evaluatePolynomialFromRoots_nil] at hguard
            simp only [] at hguard
            rw [magnitudeLt_zero_eps] at hguard
            exact hguard rfl
          obtain ⟨root, rest, hcons⟩ := List.exists_cons_of_ne_nil hne
          simp only [Int.toNat_ofNat]
          rw [hcons]
          have := closestRootGo_none_lt
            (ComplexMath.subtract z (ComplexMath.divide
              (evaluatePolynomialFromRoots z roots).1
              (evaluatePolynomialFromRoots z roots).2))
            tolerance root rest 0 0
          rw [← hcons] at this ⊢
          simpa using this
        · exact ih (iteration + 1) _ (by omega)
    · rw [dif_neg hit]
      refine ⟨le_refl _, fun habs => absurd habs (by norm_num)⟩

/-- The orbit of c = -1/2 stays in the real interval [-1/2, 0], so the
escape loop never trips the radius test and runs to the iteration cap. -/
theorem gpuMandelbrotGo_inside (maxIterations : ℕ) :
    ∀ fuel iteration zx, maxIterations ≤ iteration + fuel →
      iteration ≤ maxIterations → -(1 / 2) ≤ zx → zx ≤ 0 →
      gpuMandelbrotGo (-(1 / 2)) 0 4 maxIterations zx 0 iteration =
        maxIterations := by
  intro fuel
  induction fuel with
  | zero =>
    intro iteration zx hle hit h1 h2
    rw [gpuMandelbrotGo]
    have h : ¬ (zx * zx + (0 : ℚ) * 0 ≤ 4 ∧ iteration < maxIterations) := by
      rintro ⟨-, hc⟩; omega
    rw [dif_neg h]
    omega
  | succ n ih =>
    intro iteration zx hle hit h1 h2
    by_cases hlt : iteration < maxIterations
    · rw [gpuMandelbrotGo]
      have hsq : zx * zx ≤ 1 / 4 := by nlinarith
      have hcond : zx * zx + (0 : ℚ) * 0 ≤ 4 ∧ iteration < maxIterations :=
        ⟨by nlinarith, hlt⟩
      rw [dif_pos hcond]
      have e2 : (2 * zx * 0 + 0 : ℚ) = 0 := by ring
      rw [e2]
      exact ih (iteration + 1) _ (by omega) (by omega) (by nlinarith) (by nlinarith)
    · rw [gpuMandelbrotGo]
      have h : ¬ (zx * zx + (0 : ℚ) * 0 ≤ 4 ∧ iteration < maxIterations) := by
        rintro ⟨-, hc⟩; omega
      rw [dif_neg h]
      omega

/-! ## Helper lemmas: concrete Newton kernel evaluations -/

theorem evalPoly_zero_pm_one :
    evaluatePolynomialFromRoots ⟨0, 0⟩ [⟨1, 0⟩, ⟨-1, 0⟩] = (⟨-1, 0⟩, ⟨0, 0⟩) := by
  simp [evaluatePolynomialFromRoots, List.range_succ, ComplexMath.multiply,
    ComplexMath.subtract, ComplexMath.add]

theorem evalPoly_five_one :
    evaluatePolynomialFromRoots ⟨5, 0⟩ [⟨1, 0⟩] = (⟨4, 0⟩, ⟨1, 0⟩) := by
  simp [evaluatePolynomialFromRoots, List.range_succ, ComplexMath.multiply,
    ComplexMath.subtract, ComplexMath.add]
  norm_num

theorem evalPoly_one_one :
    evaluatePolynomialFromRoots ⟨1, 0⟩ [⟨1, 0⟩] = (⟨0, 0⟩, ⟨1, 0⟩) := by
  simp [evaluatePolynomialFromRoots, List.range_succ, ComplexMath.multiply,
    ComplexMath.subtract, ComplexMath.add]

theorem magnitudeLt_one_eps :
    ComplexMath.magnitudeLt ⟨1, 0⟩ derivativeEpsilon = false := by
  simp only [ComplexMath.magnitudeLt, ComplexMath.magnitudeSquared]
  rw [decide_eq_false_iff_not]
  norm_num [derivativeEpsilon]

theorem newton_step_no_conv :
    ComplexMath.magnitudeLt (ComplexMath.subtract ⟨1, 0⟩ ⟨5, 0⟩)
      (1 / 1000000) = false := by
  simp only [ComplexMath.magnitudeLt, ComplexMath.magnitudeSquared,
    ComplexMath.subtract]
  rw [decide_eq_false_iff_not]
  norm_num

theorem newton_step_one :
    ComplexMath.subtract ⟨5, 0⟩ (ComplexMath.divide ⟨4, 0⟩ ⟨1, 0⟩) =
      (⟨1, 0⟩ : Complex) := by
  simp [ComplexMath.subtract, ComplexMath.divide]
  norm_num

theorem newton_step_two :
    ComplexMath.subtract ⟨1, 0⟩ (ComplexMath.divide ⟨0, 0⟩ ⟨1, 0⟩) =
      (⟨1, 0⟩ : Complex) := by
  simp [ComplexMath.subtract, ComplexMath.divide]

theorem newton_conv_check :
    ComplexMath.magnitudeLt (ComplexMath.subtract ⟨1, 0⟩ ⟨1, 0⟩)
      (1 / 1000000) = true := by
  simp only [ComplexMath.magnitudeLt, ComplexMath.magnitudeSquared,
    ComplexMath.subtract]
  rw [decide_eq_true_iff]
  norm_num

theorem closestRoot_example :
    closestRootGo ⟨1, 0⟩ (1 / 1000000) [⟨1, 0⟩] 0 0 none = 0 := by
  rw [closestRootGo]
  rw [if_pos (by rfl)]
  rw [if_pos (by norm_num [distSq])]

/-- Concrete convergent run: starting at 5 + 0i with the single root 1,
the worker Newton kernel converges to root 0 at iteration 1. -/
theorem newton_convergent_eval :
    calculateNewtonPoint 5 0 (1 / 1000000) 50 [⟨1, 0⟩] = ⟨1, 0⟩ := by
  unfold calculateNewtonPoint
  rw [calcNewtonGo, dif_pos (by norm_num : (0 : ℕ) < 50)]
  rw [evalPoly_five_one]
  simp only [newton_step_no_conv, magnitudeLt_one_eps, Bool.false_eq_true,
    if_false, newton_step_one]
  rw [calcNewtonGo, dif_pos (by norm_num : (1 : ℕ) < 50)]
  rw [evalPoly_one_one]
  simp only [magnitudeLt_one_eps, Bool.false_eq_true, if_false,
    newton_step_two, newton_conv_check, if_true, closestRoot_example]
  simp

/-- Concrete degenerate run: at 0 + 0i with roots 1 and -1 the derivative
vanishes, the guard fires at the first step, and the kernel reports
non-convergence with the full iteration cap. -/
theorem newton_degenerate_eval :
    calculateNewtonPoint 0 0 (1 / 1000000) 300 [⟨1, 0⟩, ⟨-1, 0⟩] =
      ⟨300, -1⟩ := by
  unfold calculateNewtonPoint
  rw [calcNewtonGo, dif_pos (by norm_num : (0 : ℕ) < 300)]
  rw [evalPoly_zero_pm_one]
  simp only [magnitudeLt_zero_eps, if_true]

/-! ## Claim theorems -/

/-- C1: for every Mandelbrot parameter set and resolution, the iteration
count computed by the WGSL compute shader at a pixel equals the value the
worker tile path assigns to that pixel, and also the value the
single-threaded CPU path assigns to it: all three share the
pixel-to-complex mapping real = centerX + ((x - width/2)*(3/zoom)*
aspectRatio)/width, imag = centerY + ((y - height/2)*(3/zoom))/height and
the identical escape recurrence with comparison at most escapeRadius, so
renders of identical parameters are pixel-identical across backends over
exact arithmetic. -/
theorem mandelbrot_cross_backend_parity (p : FractalParameters)
    (width height tileX tileY x y : ℕ) :
    renderTileMandelbrotValue p width height tileX tileY x y =
        gpuMandelbrotPixel p width height (tileX + x) (tileY + y) ∧
      renderMandelbrotCPUValue p width height (tileX + x) (tileY + y) =
        gpuMandelbrotPixel p width height (tileX + x) (tileY + y) := by
  constructor
  · unfold renderTileMandelbrotValue gpuMandelbrotPixel calculateMandelbrotPoint
    exact calcMandelbrotGo_eq_gpu _ _ _ _ _ _ _
  · unfold renderMandelbrotCPUValue gpuMandelbrotPixel FractalCalculations.mandelbrot
    exact fcMandelbrotGo_eq_gpu _ _ _ _ _ _ _

/-- C6: for every Julia parameter set (in particular c = -0.7 + 0.27015i,
iterations = 50 at 64 by 64), the iteration value the worker tile path
computes at local pixel (x, y) of the tile at (tileX, tileY) equals the
iteration value the single-threaded CPU path computes at the global pixel
(tileX + x, tileY + y): both apply the same pixel-to-complex mapping and
the same z := z*z + c recurrence starting from the pixel coordinate. -/
theorem julia_worker_cpu_parity (p : FractalParameters) (c : Complex)
    (width height tileX tileY x y : ℕ) :
    renderTileJuliaValue p c width height tileX tileY x y =
      renderJuliaCPUValue p c width height (tileX + x) (tileY + y) := by
  unfold renderTileJuliaValue renderJuliaCPUValue calculateJuliaPoint
    FractalCalculations.julia
  exact calcJuliaGo_eq_fc _ _ _ _ _ _ _

/-- C7: for the Mandelbrot render with centerX = -0.5, centerY = 0,
zoom = 1, iterations = 100, escapeRadius = 4 at resolution 100 by 100,
pixel (50, 50) maps to the coordinate -0.5 + 0i, whose orbit stays within
the escape radius, so the kernel returns iteration = 100 on the CPU path,
the worker tile path and the GPU shader alike. -/
theorem mandelbrot_center_pixel_inside :
    renderMandelbrotCPUValue ⟨1, -(1 / 2), 0, 100, 4⟩ 100 100 50 50 = 100 ∧
      renderTileMandelbrotValue ⟨1, -(1 / 2), 0, 100, 4⟩ 100 100 0 0 50 50 = 100 ∧
      gpuMandelbrotPixel ⟨1, -(1 / 2), 0, 100, 4⟩ 100 100 50 50 = 100 := by
  have hreal : pixelReal (-(1 / 2)) 1 100 100 50 = -(1 / 2) := by
    unfold pixelReal
    norm_num
  have himag : pixelImag 0 1 100 50 = 0 := by
    unfold pixelImag
    norm_num
  have hgpu : gpuMandelbrotPixel ⟨1, -(1 / 2), 0, 100, 4⟩ 100 100 50 50 = 100 := by
    unfold gpuMandelbrotPixel
    rw [hreal, himag]
    exact gpuMandelbrotGo_inside 100 100 0 0 (by omega) (by omega)
      (by norm_num) (by norm_num)
  refine ⟨?_, ?_, hgpu⟩
  · unfold renderMandelbrotCPUValue FractalCalculations.mandelbrot
    rw [hreal, himag, fcMandelbrotGo_eq_gpu]
    exact gpuMandelbrotGo_inside 100 100 0 0 (by omega) (by omega)
      (by norm_num) (by norm_num)
  · unfold renderTileMandelbrotValue calculateMandelbrotPoint
    norm_num
    rw [hreal, himag, calcMandelbrotGo_eq_gpu]
    exact gpuMandelbrotGo_inside 100 100 0 0 (by omega) (by omega)
      (by norm_num) (by norm_num)

/-- C10: every per-pixel kernel terminates (each embedded loop is
structurally bounded by its iteration cap) and its returned iteration
count never exceeds maxIterations. -/
theorem kernels_terminate_bounded (real imaginary tolerance : ℚ)
    (c : Complex) (maxIterations : ℕ) (escapeRadius : ℚ)
    (roots : List Complex) :
    calculateMandelbrotPoint real imaginary maxIterations escapeRadius ≤
        maxIterations ∧
      FractalCalculations.mandelbrot real imaginary maxIterations escapeRadius ≤
        maxIterations ∧
      calculateJuliaPoint real imaginary c maxIterations escapeRadius ≤
        maxIterations ∧
      FractalCalculations.julia real imaginary c maxIterations escapeRadius ≤
        maxIterations ∧
      calculateBurningShipPoint real imaginary maxIterations escapeRadius ≤
        maxIterations ∧
      (calculateNewtonPoint real imaginary tolerance maxIterations
          roots).iterations ≤ maxIterations := by
  refine ⟨?_, ?_, ?_, ?_, ?_, ?_⟩
  · unfold calculateMandelbrotPoint
    rw [calcMandelbrotGo_eq_gpu]
    exact gpuMandelbrotGo_le _ _ _ _ maxIterations 0 0 0 (by omega) (by omega)
  · unfold FractalCalculations.mandelbrot
    rw [fcMandelbrotGo_eq_gpu]
    exact gpuMandelbrotGo_le _ _ _ _ maxIterations 0 0 0 (by omega) (by omega)
  · unfold calculateJuliaPoint
    rw [calcJuliaGo_eq_fc]
    exact fcJuliaGo_le _ _ _ _ maxIterations 0 _ _ (by omega) (by omega)
  · unfold FractalCalculations.julia
    exact fcJuliaGo_le _ _ _ _ maxIterations 0 _ _ (by omega) (by omega)
  · unfold calculateBurningShipPoint
    exact calcBurningShipGo_le _ _ _ _ maxIterations 0 0 0 (by omega) (by omega)
  · unfold calculateNewtonPoint
    exact (calcNewtonGo_spec tolerance maxIterations roots maxIterations 0 _
      (by omega)).1

/-- C9: in the Newton kernel, whenever the derivative magnitude falls
below 1e-14 at the current iterate, the loop halts before performing the
Newton step and reports the pixel non-convergent (root -1, iterations =
maxIterations); and whenever the step is performed (guard false), the
squared magnitude of the derivative, the exact denominator used by
ComplexMath.divide, is at least 1e-14 squared, in particular nonzero. -/
theorem newton_derivative_guard (tolerance : ℚ) (maxIterations : ℕ)
    (roots : List Complex) (z : Complex) (iteration : ℕ)
    (hit : iteration < maxIterations)
    (hguard : ComplexMath.magnitudeLt (evaluatePolynomialFromRoots z roots).2
      derivativeEpsilon = true) :
    calcNewtonGo tolerance maxIterations roots z iteration =
        ⟨maxIterations, -1⟩ ∧
      ∀ w : Complex,
        ComplexMath.magnitudeLt w derivativeEpsilon = false →
          derivativeEpsilon * derivativeEpsilon ≤
              ComplexMath.magnitudeSquared w ∧
            0 < ComplexMath.magnitudeSquared w := by
  refine ⟨?_, fun w hw => magnitudeLt_false_denominator w hw⟩
  rw [calcNewtonGo, dif_pos hit]
  simp only [hguard, if_true]

theorem newton_derivative_guard_witness :
    ((0 : ℕ) < 300 ∧
      ComplexMath.magnitudeLt
        (evaluatePolynomialFromRoots ⟨0, 0⟩ [⟨1, 0⟩, ⟨-1, 0⟩]).2
        derivativeEpsilon = true) ∧
      (calcNewtonGo (1 / 1000000) 300 [⟨1, 0⟩, ⟨-1, 0⟩] ⟨0, 0⟩ 0 =
          ⟨300, -1⟩ ∧
        ∀ w : Complex,
          ComplexMath.magnitudeLt w derivativeEpsilon = false →
            derivativeEpsilon * derivativeEpsilon ≤
                ComplexMath.magnitudeSquared w ∧
              0 < ComplexMath.magnitudeSquared w) :=
  ⟨⟨by norm_num, by rw [evalPoly_zero_pm_one]; exact magnitudeLt_zero_eps⟩,
    newton_derivative_guard (1 / 1000000) 300 [⟨1, 0⟩, ⟨-1, 0⟩] ⟨0, 0⟩ 0
      (by norm_num) (by rw [evalPoly_zero_pm_one]; exact magnitudeLt_zero_eps)⟩

/-- C2 (amended): for a Newton render whose iteration cap is at most 100,
every convergent pixel stores colorValue = root*100 + iterations with a
valid root index and iterations below 100, so dividing by 100 and taking
the remainder recovers the pair exactly; a non-convergent pixel instead
stores the sentinel value maxIterations (the renderer special-cases that
value before decoding; floor division of a stored value never produces
-1).  The original claim fails for caps above 100, see the
counterexample. -/
theorem newton_encoding_invariant (real imaginary tolerance : ℚ)
    (maxIterations : ℕ) (roots : List Complex)
    (hcap : maxIterations ≤ 100) :
    (0 ≤ (calculateNewtonPoint real imaginary tolerance maxIterations
          roots).root →
        (calculateNewtonPoint real imaginary tolerance maxIterations
            roots).root.toNat < roots.length ∧
          (calculateNewtonPoint real imaginary tolerance maxIterations
              roots).iterations < 100 ∧
          newtonColorValue (calculateNewtonPoint real imaginary tolerance
              maxIterations roots) maxIterations / 100 =
            (calculateNewtonPoint real imaginary tolerance maxIterations
                roots).root.toNat ∧
          newtonColorValue (calculateNewtonPoint real imaginary tolerance
              maxIterations roots) maxIterations % 100 =
            (calculateNewtonPoint real imaginary tolerance maxIterations
                roots).iterations) ∧
      ((calculateNewtonPoint real imaginary tolerance maxIterations
            roots).root < 0 →
        newtonColorValue (calculateNewtonPoint real imaginary tolerance
            maxIterations roots) maxIterations = maxIterations) := by
  have spec := calcNewtonGo_spec tolerance maxIterations roots maxIterations 0
    ⟨real, imaginary⟩ (by omega)
  unfold calculateNewtonPoint at *
  constructor
  · intro hroot
    obtain ⟨hlen, hlt⟩ := spec.2 hroot
    have hit100 : (calcNewtonGo tolerance maxIterations roots
        ⟨real, imaginary⟩ 0).iterations < 100 := by omega
    refine ⟨hlen, hit100, ?_, ?_⟩ <;>
      · unfold newtonColorValue
        rw [if_pos hroot]
        omega
  · intro hneg
    unfold newtonColorValue
    rw [if_neg (by omega)]

theorem newton_encoding_invariant_witness :
    ((50 : ℕ) ≤ 100 ∧
      0 ≤ (calculateNewtonPoint 5 0 (1 / 1000000) 50 [⟨1, 0⟩]).root) ∧
      ((0 ≤ (calculateNewtonPoint 5 0 (1 / 1000000) 50 [⟨1, 0⟩]).root →
          (calculateNewtonPoint 5 0 (1 / 1000000) 50
              [⟨1, 0⟩]).root.toNat < ([⟨1, 0⟩] : List Complex).length ∧
            (calculateNewtonPoint 5 0 (1 / 1000000) 50
                [⟨1, 0⟩]).iterations < 100 ∧
            newtonColorValue (calculateNewtonPoint 5 0 (1 / 1000000) 50
                [⟨1, 0⟩]) 50 / 100 =
              (calculateNewtonPoint 5 0 (1 / 1000000) 50
                  [⟨1, 0⟩]).root.toNat ∧
            newtonColorValue (calculateNewtonPoint 5 0 (1 / 1000000) 50
                [⟨1, 0⟩]) 50 % 100 =
              (calculateNewtonPoint 5 0 (1 / 1000000) 50
                  [⟨1, 0⟩]).iterations) ∧
        ((calculateNewtonPoint 5 0 (1 / 1000000) 50 [⟨1, 0⟩]).root < 0 →
          newtonColorValue (calculateNewtonPoint 5 0 (1 / 1000000) 50
              [⟨1, 0⟩]) 50 = 50)) :=
  ⟨⟨by norm_num, by rw [newton_convergent_eval]⟩,
    newton_encoding_invariant 5 0 (1 / 1000000) 50 [⟨1, 0⟩] (by norm_num)⟩

/-- C2 counterexample: a Newton render with iteration cap 300 over the
roots 1 and -1 is refuted at the center pixel of a 2 by 2 render with
centerX = centerY = 0, which maps to coordinate 0 + 0i: the derivative
vanishes there, the pixel is non-convergent, the stored composite value
is 300, and its decoded root index 300 / 100 = 3 is neither -1 nor a
valid index into the two-element roots list. -/
theorem newton_encoding_counterexample :
    pixelReal 0 1 2 2 1 = 0 ∧ pixelImag 0 1 2 1 = 0 ∧
      newtonColorValue (calculateNewtonPoint 0 0 (1 / 1000000) 300
          [⟨1, 0⟩, ⟨-1, 0⟩]) 300 = 300 ∧
      newtonColorValue (calculateNewtonPoint 0 0 (1 / 1000000) 300
          [⟨1, 0⟩, ⟨-1, 0⟩]) 300 / 100 = 3 ∧
      ¬((newtonColorValue (calculateNewtonPoint 0 0 (1 / 1000000) 300
            [⟨1, 0⟩, ⟨-1, 0⟩]) 300 / 100 : ℤ) = -1 ∨
        newtonColorValue (calculateNewtonPoint 0 0 (1 / 1000000) 300
            [⟨1, 0⟩, ⟨-1, 0⟩]) 300 / 100 <
          ([⟨1, 0⟩, ⟨-1, 0⟩] : List Complex).length) := by
  refine ⟨by unfold pixelReal; norm_num, by unfold pixelImag; norm_num, ?_⟩
  rw [newton_degenerate_eval]
  unfold newtonColorValue
  norm_num

/-- C4: for every resolution and worker count, with the tile size chosen
by the tile-size policy, the tile rectangles generated by
renderWithWorkers are pairwise disjoint and their union is exactly the
full pixel rectangle: every in-range pixel lies in some tile, every tile
pixel is in range, and no pixel lies in two distinct tiles. -/
theorem tiling_exact_partition (width height workerCount : ℕ) :
    (∀ px py, px < width → py < height →
      ∃ r ∈ tileRects width height (tileSizePolicy width height workerCount),
        r.contains px py) ∧
      (∀ r ∈ tileRects width height (tileSizePolicy width height workerCount),
        ∀ px py, r.contains px py → px < width ∧ py < height) ∧
      (∀ r₁ ∈ tileRects width height (tileSizePolicy width height workerCount),
        ∀ r₂ ∈ tileRects width height (tileSizePolicy width height workerCount),
        ∀ px py, r₁.contains px py → r₂.contains px py → r₁ = r₂) := by
  have htpos : 0 < tileSizePolicy width height workerCount :=
    tileSizePolicy_pos width height workerCount
  set t := tileSizePolicy width height workerCount with htdef
  refine ⟨?_, ?_, ?_⟩
  · intro px py hpx hpy
    refine ⟨tileRect t (px / t) (py / t) width height, ?_, ?_⟩
    · rw [mem_tileRects]
      exact ⟨px / t, py / t,
        (lt_ceilDiv_iff t width _ htpos).2
          (lt_of_le_of_lt (Nat.div_mul_le_self px t) hpx),
        (lt_ceilDiv_iff t height _ htpos).2
          (lt_of_le_of_lt (Nat.div_mul_le_self py t) hpy), rfl⟩
    · exact (contains_tileRect_iff t width height _ _ px py htpos
        (lt_of_le_of_lt (Nat.div_mul_le_self px t) hpx)
        (lt_of_le_of_lt (Nat.div_mul_le_self py t) hpy)).2
        ⟨rfl, rfl, hpx, hpy⟩
  · intro r hr px py hc
    rw [mem_tileRects] at hr
    obtain ⟨tx, ty, htx, hty, rfl⟩ := hr
    have h1 := (lt_ceilDiv_iff t width tx htpos).1 htx
    have h2 := (lt_ceilDiv_iff t height ty htpos).1 hty
    have := (contains_tileRect_iff t width height tx ty px py htpos h1 h2).1 hc
    exact ⟨this.2.2.1, this.2.2.2⟩
  · intro r₁ hr₁ r₂ hr₂ px py hc₁ hc₂
    rw [mem_tileRects] at hr₁ hr₂
    obtain ⟨tx₁, ty₁, htx₁, hty₁, rfl⟩ := hr₁
    obtain ⟨tx₂, ty₂, htx₂, hty₂, rfl⟩ := hr₂
    have h11 := (lt_ceilDiv_iff t width tx₁ htpos).1 htx₁
    have h12 := (lt_ceilDiv_iff t height ty₁ htpos).1 hty₁
    have h21 := (lt_ceilDiv_iff t width tx₂ htpos).1 htx₂
    have h22 := (lt_ceilDiv_iff t height ty₂ htpos).1 hty₂
    have e₁ := (contains_tileRect_iff t width height tx₁ ty₁ px py htpos h11 h12).1 hc₁
    have e₂ := (contains_tileRect_iff t width height tx₂ ty₂ px py htpos h21 h22).1 hc₂
    rw [e₁.1, e₁.2.1, e₂.1, e₂.2.1]

theorem tiling_exact_partition_witness :
    ((70 : ℕ) < 100 ∧ (10 : ℕ) < 50) ∧
      ((∀ px py, px < 100 → py < 50 →
        ∃ r ∈ tileRects 100 50 (tileSizePolicy 100 50 4), r.contains px py) ∧
        (∀ r ∈ tileRects 100 50 (tileSizePolicy 100 50 4),
          ∀ px py, r.contains px py → px < 100 ∧ py < 50) ∧
        (∀ r₁ ∈ tileRects 100 50 (tileSizePolicy 100 50 4),
          ∀ r₂ ∈ tileRects 100 50 (tileSizePolicy 100 50 4),
          ∀ px py, r₁.contains px py → r₂.contains px py → r₁ = r₂)) :=
  ⟨by decide, tiling_exact_partition 100 50 4⟩

/-- Fingerprint of the deduplication example: a Julia request with
c = -0.7 + 0.27015i, iteration cap 100, at 64 by 64. -/
def exampleJuliaKey : RenderKey :=
  makeRenderKey FractalType.julia ⟨1, 0, 0, 100, 4⟩
    ⟨-(7 / 10), 27015 / 100000⟩ 64 64

/-- C3: a second renderFractal call whose fingerprint matches one still in
flight receives the very same task with no new dispatch; a fresh
fingerprint dispatches exactly once, is found in the in-flight map while
running, and is removed from the map on completion (the finally block
runs whether the task resolves or rejects). -/
theorem dedup_single_dispatch (s : EngineTasks) (key : RenderKey) :
    (∀ tid, findTask s.tasks key = some tid →
      startRender s key = (tid, s, false)) ∧
      (findTask s.tasks key = none →
        (startRender s key).2.2 = true ∧
          findTask (startRender s key).2.1.tasks key =
            some (startRender s key).1 ∧
          startRender (startRender s key).2.1 key =
            ((startRender s key).1, (startRender s key).2.1, false) ∧
          findTask (completeRender (startRender s key).2.1 key).tasks key =
            none) := by
  constructor
  · intro tid h
    unfold startRender
    rw [h]
  · intro h
    have hs : startRender s key =
        (s.nextId, ⟨(key, s.nextId) :: s.tasks, s.nextId + 1⟩, true) := by
      unfold startRender
      rw [h]
    rw [hs]
    refine ⟨rfl, findTask_insert s.tasks key s.nextId, ?_, ?_⟩
    · unfold startRender
      rw [findTask_insert]
    · unfold completeRender
      exact findTask_filter_ne key _

theorem dedup_single_dispatch_witness :
    findTask (⟨[], 0⟩ : EngineTasks).tasks exampleJuliaKey = none ∧
      ((startRender ⟨[], 0⟩ exampleJuliaKey).2.2 = true ∧
        findTask (startRender ⟨[], 0⟩ exampleJuliaKey).2.1.tasks
            exampleJuliaKey = some (startRender ⟨[], 0⟩ exampleJuliaKey).1 ∧
        startRender (startRender ⟨[], 0⟩ exampleJuliaKey).2.1 exampleJuliaKey =
          ((startRender ⟨[], 0⟩ exampleJuliaKey).1,
            (startRender ⟨[], 0⟩ exampleJuliaKey).2.1, false) ∧
        findTask (completeRender (startRender ⟨[], 0⟩ exampleJuliaKey).2.1
            exampleJuliaKey).tasks exampleJuliaKey = none) :=
  ⟨rfl, (dedup_single_dispatch ⟨[], 0⟩ exampleJuliaKey).2 rfl⟩

/-- C8 (amended): the progress sequences of the worker-pool and
single-threaded CPU backends are monotonically non-decreasing, and the
worker-pool sequence ends at 1.0; the CPU row-cadence sequence however
consists of values strictly below 1, so its final reported value is not
1.0 (see the counterexample), and the GPU path reports no progress at
all. -/
theorem progress_monotone_final (totalTiles height : ℕ)
    (hT : 0 < totalTiles) :
    List.Pairwise (· ≤ ·) (workerProgressValues totalTiles) ∧
      (workerProgressValues totalTiles).getLast? = some 1 ∧
      List.Pairwise (· ≤ ·) (cpuProgressValues height) ∧
      ∀ q ∈ cpuProgressValues height, q < 1 :=
  ⟨workerProgressValues_pairwise _, workerProgressValues_getLast _ hT,
    cpuProgressValues_pairwise _, cpuProgressValues_lt_one _⟩

theorem progress_monotone_final_witness :
    (0 : ℕ) < 4 ∧
      (List.Pairwise (· ≤ ·) (workerProgressValues 4) ∧
        (workerProgressValues 4).getLast? = some 1 ∧
        List.Pairwise (· ≤ ·) (cpuProgressValues 40) ∧
        ∀ q ∈ cpuProgressValues 40, q < 1) :=
  ⟨by norm_num, progress_monotone_final 4 40 (by norm_num)⟩

/-- C8 counterexample: a successful single-threaded CPU render at height
40 reports the progress values 0 and 1/2 only, so the final value passed
to onProgress is 1/2, not 1.0 — the loop reports y/height at rows
divisible by 20 and nothing afterwards. -/
theorem progress_cpu_final_counterexample :
    (cpuProgressValues 40).getLast? = some (1 / 2) ∧ ((1 : ℚ) / 2) ≠ 1 := by
  constructor
  · have hf : (List.range 40).filter (fun y => y % 20 = 0) = [0, 20] := by
      decide
    unfold cpuProgressValues
    rw [hf]
    simp only [List.map_cons, List.map_nil]
    rw [show [((0 : ℕ) : ℚ) / ((40 : ℕ) : ℚ), ((20 : ℕ) : ℚ) / ((40 : ℕ) : ℚ)] =
      [((0 : ℕ) : ℚ) / ((40 : ℕ) : ℚ)] ++ [((20 : ℕ) : ℚ) / ((40 : ℕ) : ℚ)]
      from rfl]
    rw [List.getLast?_concat]
    norm_num
  · norm_num

/-- C5 (amended): a pixel whose iteration value equals maxIterations is
hard-coded to opaque black by ColorPalette.applyPalette regardless of the
palette, by FractalEngine.applyNewtonPalette, and by the worker renderTile
coloring for every non-Newton fractal kind; the worker Newton path
however routes such pixels through the palette lookup instead (see the
counterexample). -/
theorem value_eq_cap_black (maxIterations paramIterations rootCount
    rootsLength colorValue : ℕ) (palette : List RGBA) (ft : FractalType)
    (pt : PaletteType) (hft : ft ≠ FractalType.newton) :
    applyPalettePixel maxIterations maxIterations palette = ⟨0, 0, 0, 255⟩ ∧
      applyNewtonPalettePixel maxIterations maxIterations palette rootCount =
        ⟨0, 0, 0, 255⟩ ∧
      renderTilePixelColor ft pt paramIterations rootsLength paramIterations
        colorValue palette = ⟨0, 0, 0, 255⟩ := by
  refine ⟨?_, ?_, ?_⟩
  · unfold applyPalettePixel
    rw [if_pos rfl]
  · simp only [applyNewtonPalettePixel]
    rw [if_pos trivial]
  · cases ft with
    | newton => exact absurd rfl hft
    | mandelbrot =>
      simp only [renderTilePixelColor, renderTileMaxIterations]
      rw [if_pos ⟨by decide, trivial⟩]
    | julia =>
      simp only [renderTilePixelColor, renderTileMaxIterations]
      rw [if_pos ⟨by decide, trivial⟩]
    | burningShip =>
      simp only [renderTilePixelColor, renderTileMaxIterations]
      rw [if_pos ⟨by decide, trivial⟩]

theorem value_eq_cap_black_witness :
    (FractalType.mandelbrot ≠ FractalType.newton) ∧
      (applyPalettePixel 100 100 (generateGrayscale 256) = ⟨0, 0, 0, 255⟩ ∧
        applyNewtonPalettePixel 100 100 (generateGrayscale 256) 3 =
          ⟨0, 0, 0, 255⟩ ∧
        renderTilePixelColor FractalType.mandelbrot PaletteType.grayscale
          100 0 100 100 (generateGrayscale 256) = ⟨0, 0, 0, 255⟩) :=
  ⟨by decide, value_eq_cap_black 100 100 3 0 100 (generateGrayscale 256)
    FractalType.mandelbrot PaletteType.grayscale (by decide)⟩

set_option maxRecDepth 8192 in
/-- C5 counterexample: in the worker tile path with the grayscale palette,
a Newton pixel whose stored value equals the render iteration cap of 100
(a non-convergent pixel) is not painted black: the coloring uses the
hard-coded Newton cap 300, selects palette index floor((100/300)*255) =
85, and writes the mid-gray (85, 85, 85, 255). -/
theorem worker_newton_value_cap_not_black :
    renderTilePixelColor FractalType.newton PaletteType.grayscale 100 2 100
        100 (generateGrayscale 256) = ⟨85, 85, 85, 255⟩ ∧
      (⟨85, 85, 85, 255⟩ : RGBA) ≠ ⟨0, 0, 0, 255⟩ := by
  constructor
  · simp only [renderTilePixelColor, renderTileMaxIterations]
    rw [if_neg (by decide), if_neg (by decide)]
    have hlen : (generateGrayscale 256).length = 256 := by
      simp [generateGrayscale]
    rw [hlen]
    rw [show (⌊((100 : ℕ) : ℚ) / ((300 : ℕ) : ℚ) * (((256 : ℕ) : ℚ) - 1)⌋ : ℤ)
        = 85 by
      rw [show (((100 : ℕ) : ℚ) / ((300 : ℕ) : ℚ) * (((256 : ℕ) : ℚ) - 1))
          = 85 by push_cast; norm_num]
      exact_mod_cast Int.floor_intCast 85]
    rw [show (max 0 (min (85 : ℤ) (((256 : ℕ) : ℤ) - 1))) = 85 by norm_num]
    unfold paletteGet
    rw [if_pos (by norm_num)]
    rw [show ((85 : ℤ)).toNat = 85 from rfl]
    unfold generateGrayscale
    rw [List.get?_map, List.get?_range (by norm_num : (85 : ℕ) < 256)]
    simp only [Option.map_some']
    rw [show (⌊((85 : ℕ) : ℚ) / (((256 : ℕ) : ℚ) - 1) * 255⌋ : ℤ) = 85 by
      rw [show (((85 : ℕ) : ℚ) / (((256 : ℕ) : ℚ) - 1) * 255) = 85 by
        push_cast; norm_num]
      exact_mod_cast Int.floor_intCast 85]
    rfl
  · intro h
    exact absurd (congrArg RGBA.r h) (by norm_num)

end FractalJs
